import Mathlib

/-!
Verification of the field-resolution engine of the `cfg` configuration
library (a Go library).  The definitions below are a shallow embedding of
the Go source: each Lean function mirrors one Go function of the library,
with reflection-based mutation rendered as explicit state passing
(a function returns the new value of the mutated location together with
the optional error).  Machine integers are modelled as `Int`/`Nat` with
explicit reduction modulo `2^w` where the Go runtime wraps.

External collaborators of the engine (the time, regexp and float parsing
routines of the Go standard library whose internals no claim depends on)
are abstracted as a record of parameters (`CfgModel.Stdlib`); the claims
are proved for every instantiation.  Fields whose declared kind is a
floating-point type are outside the model (no claim concerns them).
-/

namespace CfgModel

/-- The declared kind of a field location, mirroring the `reflect.Kind`
dispatch performed by `setValue`.  Signed-integer kinds whose concrete Go
type is `time.Duration` are special-cased by the source, hence `kDuration`
is a separate kind.  `w` is the bit width of the integer kind (Go's plain
`int`/`uint` are 64-bit on the supported platforms).  `kOther` stands for
every kind `setValue` has no conversion rule for (functions, channels,
interfaces, structs other than `time.Time` / `regexp.Regexp`). -/
inductive Kind where
  | kBool : Kind
  | kInt (w : Nat) : Kind
  | kDuration : Kind
  | kUint (w : Nat) : Kind
  | kString : Kind
  | kTime : Kind
  | kRegexp : Kind
  | kPtr (e : Kind) : Kind
  | kSlice (e : Kind) : Kind
  | kOther : Kind
  deriving DecidableEq

/-- A runtime value sitting at a field location.  `vPtr` carries the
pointee kind (Go: `fv.Type().Elem()`) so that a nil pointer can be
allocated, `vSlice` carries the element kind (Go: `sv.Type()`).
A compiled regular expression is represented by its source text
(Go: `re.String()`), a `time.Time` by an abstract instant. -/
inductive GoValue where
  | vBool (b : Bool) : GoValue
  | vInt (w : Nat) (n : Int) : GoValue
  | vDuration (n : Int) : GoValue
  | vUint (w : Nat) (n : Nat) : GoValue
  | vString (s : String) : GoValue
  | vTime (t : Int) : GoValue
  | vRegexp (r : String) : GoValue
  | vPtr (e : Kind) (p : Option GoValue) : GoValue
  | vSlice (e : Kind) (xs : List GoValue) : GoValue
  | vOther : GoValue

/-- The zero value of a kind (Go: the value created by `reflect.New` /
`reflect.MakeSlice` before anything is written to it). -/
def zeroValue : Kind → GoValue
  | .kBool => .vBool false
  | .kInt w => .vInt w 0
  | .kDuration => .vDuration 0
  | .kUint w => .vUint w 0
  | .kString => .vString ""
  | .kTime => .vTime 0
  | .kRegexp => .vRegexp ""
  | .kPtr e => .vPtr e none
  | .kSlice e => .vSlice e []
  | .kOther => .vOther

/-- The engine configuration, mirroring the fields of the Go struct `cfg`
that the resolution engine reads (`filename`/`dirs` drive only the file
discovery, which the model takes as an input instead). -/
structure Cfg where
  tag : String
  timeLayout : String
  useEnv : Bool
  useStrict : Bool
  ignoreFile : Bool
  envPrefix : String
  deriving DecidableEq

/-- `defaultCfg` of the source, restricted to the modelled fields
(`DefaultTag`, `DefaultTimeLayout = time.RFC3339`). -/
def defaultCfg : Cfg :=
  ⟨"cfg", "2006-01-02T15:04:05Z07:00", false, false, false, ""⟩

/-- External standard-library collaborators of the coercion engine:
`time.Parse` (layout, then input) and `regexp.Compile`.  Their internal
grammars are not part of this repository; every theorem below holds for
an arbitrary instantiation. -/
structure Stdlib where
  parseTime : String → String → Option Int
  compileRegexp : String → Option String

/-- A trivial instantiation of the external collaborators, used to
evaluate the model at concrete inputs. -/
def std0 : Stdlib := ⟨fun _ _ => none, fun _ => none⟩

/-! ### String-to-number parsing (strconv)

`strconv.ParseBool`, `strconv.ParseInt(val, 10, 64)` and
`strconv.ParseUint(val, 10, 64)` as called by `setValue`, modelled from
their documented behaviour: base-10 only, a sign is permitted for the
signed parse only, and a value outside the 64-bit range is an error. -/

/-- `strconv.ParseBool`: accepts exactly the twelve literal forms. -/
def parseBool (s : String) : Option Bool :=
  if s = "1" ∨ s = "t" ∨ s = "T" ∨ s = "true" ∨ s = "TRUE" ∨ s = "True" then
    some true
  else if s = "0" ∨ s = "f" ∨ s = "F" ∨ s = "false" ∨ s = "FALSE" ∨ s = "False" then
    some false
  else none

def isDigitCh (c : Char) : Bool := '0' ≤ c ∧ c ≤ '9'

def digitsToNatAux : List Char → Nat → Option Nat
  | [], acc => some acc
  | c :: rest, acc =>
    if isDigitCh c then digitsToNatAux rest (acc * 10 + (c.toNat - 48)) else none

/-- A non-empty all-digit string read as a natural number. -/
def digitsToNat : List Char → Option Nat
  | [] => none
  | cs => digitsToNatAux cs 0

/-- `strconv.ParseInt(s, 10, 64)`: optional sign, non-empty digits,
result within the `int64` range (Go reports `ErrRange` outside it, which
the caller treats as failure). -/
def parseInt64 (s : String) : Option Int :=
  match s.toList with
  | '+' :: rest =>
    (digitsToNat rest).bind fun n => if n ≤ 2 ^ 63 - 1 then some (n : Int) else none
  | '-' :: rest =>
    (digitsToNat rest).bind fun n => if n ≤ 2 ^ 63 then some (-(n : Int)) else none
  | cs =>
    (digitsToNat cs).bind fun n => if n ≤ 2 ^ 63 - 1 then some (n : Int) else none

/-- `strconv.ParseUint(s, 10, 64)`: non-empty digits, no sign permitted,
result within the `uint64` range. -/
def parseUint64 (s : String) : Option Nat :=
  (digitsToNat s.toList).bind fun n => if n ≤ 2 ^ 64 - 1 then some n else none

/-- `reflect.Value.SetInt` on a `w`-bit signed field: the `int64`
argument is reduced modulo `2^w` (two's complement), without any
overflow check. -/
def truncInt (w : Nat) (i : Int) : Int :=
  let m := i % ((2 ^ w : Nat) : Int)
  if m ≥ ((2 ^ (w - 1) : Nat) : Int) then m - ((2 ^ w : Nat) : Int) else m

/-- `reflect.Value.SetUint` on a `w`-bit unsigned field: reduction
modulo `2^w`, without any overflow check. -/
def truncUint (w : Nat) (n : Nat) : Nat := n % 2 ^ w

/-! ### Duration parsing -/

/-- Modelled from the spec: `time.ParseDuration` (the Go standard
library's duration-literal grammar, not part of this repository) —
"`\"1h30m\"`-style, units required": an optional sign, then one or more
groups of decimal digits with an optional fraction, each followed by a
unit (`ns`, `us`, `µs`, `ms`, `s`, `m`, `h`); the total must fit in an
`int64` of nanoseconds. -/
def unitNanos (u : List Char) : Option Nat :=
  if u = ['n', 's'] then some 1
  else if u = ['u', 's'] ∨ u = ['µ', 's'] ∨ u = ['μ', 's'] then some 1000
  else if u = ['m', 's'] then some 1000000
  else if u = ['s'] then some 1000000000
  else if u = ['m'] then some 60000000000
  else if u = ['h'] then some 3600000000000
  else none

def takeDigitsAux : List Char → Nat → Nat → Nat × Nat × List Char
  | [], v, n => (v, n, [])
  | c :: rest, v, n =>
    if isDigitCh c then takeDigitsAux rest (v * 10 + (c.toNat - 48)) (n + 1)
    else (v, n, c :: rest)

/-- Leading run of decimal digits: value, digit count, remainder. -/
def takeDigits (cs : List Char) : Nat × Nat × List Char := takeDigitsAux cs 0 0

/-- One duration group `digits[.digits]unit`, returning its nanosecond
value and the unconsumed remainder. -/
def parseDurGroup (cs : List Char) : Option (Nat × List Char) :=
  match cs with
  | [] => none
  | c :: _ =>
    if !(isDigitCh c || c = '.') then none
    else
      let (v, preCnt, cs1) := takeDigits cs
      let (f, scale, postCnt, cs2) :=
        match cs1 with
        | '.' :: rest =>
          let (fv, fn, rest') := takeDigits rest
          (fv, 10 ^ fn, fn, rest')
        | other => (0, 1, 0, other)
      if preCnt = 0 ∧ postCnt = 0 then none
      else
        let unitChars := cs2.takeWhile (fun ch => !(isDigitCh ch || ch = '.'))
        let cs3 := cs2.dropWhile (fun ch => !(isDigitCh ch || ch = '.'))
        if unitChars = [] then none
        else
          match unitNanos unitChars with
          | none => none
          | some u =>
            if v > 2 ^ 63 / u then none
            else
              let vn := v * u + f * u / scale
              if vn > 2 ^ 63 then none else some (vn, cs3)

def parseDurLoop : Nat → Nat → List Char → Option Nat
  | _, d, [] => some d
  | 0, _, _ => none
  | fuel + 1, d, cs =>
    match parseDurGroup cs with
    | none => none
    | some (v, rest) =>
      let d' := d + v
      if d' > 2 ^ 63 then none else parseDurLoop fuel d' rest

/-- Modelled from the spec: the duration-literal parse used for
duration-typed fields (see `unitNanos`). -/
def parseDuration (s : String) : Option Int :=
  let cs := s.toList
  let (neg, body) :=
    match cs with
    | '-' :: rest => (true, rest)
    | '+' :: rest => (false, rest)
    | other => (false, other)
  if body = ['0'] then some 0
  else if body = [] then none
  else
    match parseDurLoop (body.length + 1) 0 body with
    | none => none
    | some d =>
      if neg then some (-(d : Int))
      else if d > 2 ^ 63 - 1 then none
      else some (d : Int)

/-! ### Sequence splitting -/

/-- Modelled from the spec: the Sequence Parser (`stringSlice`, whose
source file is not under `src/`) — strip one pair of enclosing square
brackets if present, then split on commas at bracket depth zero only, so
`"[[a-z]+,.*]"` yields the two tokens `"[a-z]+"` and `".*"`. -/
def splitTopLevel : List Char → Nat → List Char → List String → List String
  | [], _, cur, acc => (acc ++ [String.mk cur.reverse])
  | c :: rest, depth, cur, acc =>
    if c = ',' ∧ depth = 0 then
      splitTopLevel rest depth [] (acc ++ [String.mk cur.reverse])
    else if c = '[' then splitTopLevel rest (depth + 1) (c :: cur) acc
    else if c = ']' then splitTopLevel rest (depth - 1) (c :: cur) acc
    else splitTopLevel rest depth (c :: cur) acc

/-- Modelled from the spec: see `splitTopLevel`.  The optional outer
bracket pair is stripped on the character list (`[` and `]` are
single-byte, so this matches the byte slicing `s[1 : len(s)-1]`). -/
def stringSlice (s : String) : List String :=
  let cs := s.toList
  let body :=
    if cs.head? = some '[' ∧ cs.getLast? = some ']' ∧ cs.length ≥ 2 then
      (cs.drop 1).dropLast
    else cs
  splitTopLevel body 0 [] []

/-! ### The coercion engine (`setValue` / `setSlice` / `setDefaultValue`) -/

/-- The error raised by a coercion, tagged by the failing parse
(each constructor carries the rejected input string). -/
inductive CoerceError where
  | boolParse (val : String) : CoerceError
  | intParse (val : String) : CoerceError
  | durationParse (val : String) : CoerceError
  | uintParse (val : String) : CoerceError
  | timeParse (val : String) : CoerceError
  | regexpCompile (val : String) : CoerceError
  | unsupportedType : CoerceError
  deriving DecidableEq

/-- Depth of pointer/slice nesting of a kind; the recursion fuel of the
coercion engine (`setValue` recurses only through `kPtr`/`kSlice`). -/
def kindSize : Kind → Nat
  | .kPtr e => kindSize e + 1
  | .kSlice e => kindSize e + 1
  | _ => 0

/-- The element loop of `setSlice`: coerce every parsed token into a
fresh zero element, stopping at the first failure. -/
def coerceTokens (coe : String → GoValue × Option CoerceError) :
    List String → Except CoerceError (List GoValue)
  | [] => .ok []
  | s :: rest =>
    match coe s with
    | (v, none) =>
      match coerceTokens coe rest with
      | .ok vs => .ok (v :: vs)
      | .error e => .error e
    | (_, some e) => .error e

/-- The pointee `setValue` recurses on for a pointer location: the
existing pointee when the pointer is non-nil, a freshly allocated zero
value otherwise (Go: `fv.Set(reflect.New(fv.Type().Elem()))`). -/
def ptrInner (e : Kind) : GoValue → GoValue
  | .vPtr _ (some iv) => iv
  | _ => zeroValue e

/-- `setValue`, fuelled by `kindSize` so that the recursion through the
pointee/element kind is structural (the fuel passed at each recursive
call is exactly the `kindSize` of the smaller kind, so the zero-fuel
cases are unreachable).  Returns the value of the location after the
call together with the optional error: a failed parse leaves a scalar
location unchanged, a failed slice coercion discards the fresh slice,
but a nil pointer stays allocated even when coercing its pointee fails
(Go allocates with `fv.Set(reflect.New(...))` before recursing). -/
def setValueAux (c : Cfg) (ext : Stdlib) :
    Nat → Kind → GoValue → String → GoValue × Option CoerceError
  | fuel + 1, .kPtr e, v, val =>
    let r := setValueAux c ext fuel e (ptrInner e v) val
    (.vPtr e (some r.1), r.2)
  | fuel + 1, .kSlice e, v, val =>
    match coerceTokens (fun s => setValueAux c ext fuel e (zeroValue e) s) (stringSlice val) with
    | .ok elems => (.vSlice e elems, none)
    | .error e => (v, some e)
  | 0, .kPtr _, v, _ => (v, some .unsupportedType)
  | 0, .kSlice _, v, _ => (v, some .unsupportedType)
  | _, .kBool, v, val =>
    match parseBool val with
    | some b => (.vBool b, none)
    | none => (v, some (.boolParse val))
  | _, .kInt w, v, val =>
    match parseInt64 val with
    | some i => (.vInt w (truncInt w i), none)
    | none => (v, some (.intParse val))
  | _, .kDuration, v, val =>
    match parseDuration val with
    | some d => (.vDuration d, none)
    | none => (v, some (.durationParse val))
  | _, .kUint w, v, val =>
    match parseUint64 val with
    | some n => (.vUint w (truncUint w n), none)
    | none => (v, some (.uintParse val))
  | _, .kString, _, val => (.vString val, none)
  | _, .kTime, v, val =>
    match ext.parseTime c.timeLayout val with
    | some t => (.vTime t, none)
    | none => (v, some (.timeParse val))
  | _, .kRegexp, v, val =>
    match ext.compileRegexp val with
    | some r => (.vRegexp r, none)
    | none => (v, some (.regexpCompile val))
  | _, .kOther, v, _ => (v, some .unsupportedType)

/-- `setValue` of the source: convert `val` to the kind of the location
and write it, reporting an error when the conversion fails. -/
def setValue (c : Cfg) (ext : Stdlib) (k : Kind) (v : GoValue) (val : String) :
    GoValue × Option CoerceError :=
  setValueAux c ext (kindSize k) k v val

/-- `setSlice` of the source: split `val`, coerce every token into a
newly allocated slice, and assign it only when every element succeeded. -/
def setSlice (c : Cfg) (ext : Stdlib) (e : Kind) (sv : GoValue) (val : String) :
    GoValue × Option CoerceError :=
  match coerceTokens (fun s => setValue c ext e (zeroValue e) s) (stringSlice val) with
  | .ok elems => (.vSlice e elems, none)
  | .error err => (sv, some err)

/-- `setDefaultValue` of the source: like `setValue` but booleans are
rejected outright. -/
def setDefaultValue (c : Cfg) (ext : Stdlib) (k : Kind) (v : GoValue) (val : String) :
    GoValue × Option CoerceError :=
  if k = .kBool then (v, some .unsupportedType) else setValue c ext k v val

/-! ### Environment key derivation and the per-field driver -/

/-- The `strings.NewReplacer(".", "_", "[", "_", "]", "").Replace` scan
of `formatEnvKey`, rendered character by character (all patterns are
single characters). -/
def replacerGo : List Char → List Char
  | [] => []
  | c :: rest =>
    if c = '.' then '_' :: replacerGo rest
    else if c = '[' then '_' :: replacerGo rest
    else if c = ']' then replacerGo rest
    else c :: replacerGo rest

/-- `strings.ToUpper`: uppercase every character. -/
def toUpperGo (s : String) : String := String.mk (s.toList.map Char.toUpper)

/-- `formatEnvKey` of the source: replace `.` and `[` by `_`, drop `]`,
prepend `envPrefix ++ "_"` when the prefix is non-empty, uppercase. -/
def formatEnvKey (c : Cfg) (key : String) : String :=
  let k := String.mk (replacerGo key.toList)
  let k := if c.envPrefix ≠ "" then c.envPrefix ++ "_" ++ k else k
  toUpperGo k

/-- Modelled from the spec: `isZero` (whose source file is not under
`src/`) — a value counts as zero/empty under "the type's natural empty
value: empty string, numeric zero, false, nil pointer, empty/nil
sequence, zero-value timestamp". -/
def isZero : GoValue → Bool
  | .vBool b => !b
  | .vInt _ n => n == 0
  | .vDuration n => n == 0
  | .vUint _ n => n == 0
  | .vString s => s == ""
  | .vTime t => t == 0
  | .vRegexp r => r == ""
  | .vPtr _ p => p.isNone
  | .vSlice _ xs => xs.isEmpty
  | .vOther => true

/-- One discovered field, as produced by the tree flattener: its kind,
its current value (the engine's view of the location it points into),
its rendered path, and its annotations.  The flattener itself is not
under `src/`; the claims quantify over its output. -/
structure field where
  kind : Kind
  v : GoValue
  path : String
  required : Bool
  setDefault : Bool
  defaultVal : String

/-- The process environment, a lookup function (`os.LookupEnv`). -/
def Env : Type := String → Option String

/-- `setFromEnv` of the source: derive the key; if the variable exists,
coerce its value into the location, otherwise do nothing. -/
def setFromEnv (c : Cfg) (ext : Stdlib) (env : Env) (k : Kind) (fv : GoValue)
    (key : String) : GoValue × Option CoerceError :=
  match env (formatEnvKey c key) with
  | some val => setValue c ext k fv val
  | none => (fv, none)

/-- The environment step of `processField`: `setFromEnv` when `useEnv`
is set, the identity otherwise. -/
def envStep (c : Cfg) (ext : Stdlib) (env : Env) (fld : field) :
    GoValue × Option CoerceError :=
  if c.useEnv then setFromEnv c ext env fld.kind fld.v fld.path else (fld.v, none)

/-- The error attributed to one field by `processField`, mirroring the
four `return` sites of the source. -/
inductive FieldError where
  | conflict : FieldError
  | envError (e : CoerceError) : FieldError
  | requiredError : FieldError
  | defaultError (e : CoerceError) : FieldError
  deriving DecidableEq

/-- `processField` of the source: reject a `required`+`default`
conflict; overlay the environment; check `required` against zero;
apply the default to a still-zero value. -/
def processField (c : Cfg) (ext : Stdlib) (env : Env) (fld : field) :
    GoValue × Option FieldError :=
  if fld.required && fld.setDefault then (fld.v, some .conflict)
  else
    let r := envStep c ext env fld
    match r.2 with
    | some e => (r.1, some (.envError e))
    | none =>
      if fld.required && isZero r.1 then (r.1, some .requiredError)
      else if fld.setDefault && isZero r.1 then
        match setDefaultValue c ext fld.kind r.1 fld.defaultVal with
        | (v2, some e) => (v2, some (.defaultError e))
        | (v2, none) => (v2, none)
      else (r.1, none)

/-! ### Error aggregation (`processCfg`) and the load orchestrator -/

/-- Insertion into the `fieldErrors` map (`errs[field.path()] = err`):
an existing binding for the same path is overwritten. -/
def insertErr : List (String × FieldError) → String → FieldError →
    List (String × FieldError)
  | [], key, e => [(key, e)]
  | (k, v) :: rest, key, e =>
    if k = key then (k, e) :: rest else (k, v) :: insertErr rest key e

/-- The loop of `processCfg`: process every field, recording each
failure under the field's path and continuing with the next field. -/
def collectErrs (c : Cfg) (ext : Stdlib) (env : Env)
    (acc : List (String × FieldError)) : List field → List (String × FieldError)
  | [] => acc
  | fld :: rest =>
    match (processField c ext env fld).2 with
    | some e => collectErrs c ext env (insertErr acc fld.path e) rest
    | none => collectErrs c ext env acc rest

/-- `processCfg` of the source: `some` of the aggregated error map when
at least one field failed, `none` (success) otherwise. -/
def processCfg (c : Cfg) (ext : Stdlib) (env : Env) (fields : List field) :
    Option (List (String × FieldError)) :=
  let errs := collectErrs c ext env [] fields
  if errs.length > 0 then some errs else none

/-- The error returned by `Load`: the three usage errors checked before
any resolution, a file-decode failure, or the aggregated field errors. -/
inductive LoadError where
  | notStructPtr : LoadError
  | invalidSources : LoadError
  | fileNotFound : LoadError
  | decodeError : LoadError
  | fieldErrs (m : List (String × FieldError)) : LoadError

/-- `cfg.Load` of the source, with its external inputs made explicit:
`isStructPtr` abstracts `isStructPtr(cfg)`, `foundFiles` the result of
`findCfgFile()` over the file system, `decodeOk` the success of the
`decodeFile`/`decodeMap` passes, and `fields` the flattened field list
of the target after those passes (decoding details are collaborators
outside the resolution engine).  The guard order mirrors the source. -/
def load (c : Cfg) (ext : Stdlib) (env : Env) (isStructPtr : Bool)
    (foundFiles : List String) (decodeOk : Bool) (fields : List field) :
    Option LoadError :=
  if !isStructPtr then some .notStructPtr
  else if c.ignoreFile && !c.useEnv then some .invalidSources
  else if foundFiles.isEmpty && !c.useEnv then some .fileNotFound
  else if !c.ignoreFile && !decodeOk then some .decodeError
  else
    match processCfg c ext env fields with
    | some m => some (.fieldErrs m)
    | none => none

/-! ## Auxiliary definitions for the statements -/

/-- `UseEnv(pfx)` applied to the default configuration: environment
resolution enabled with the given key prefix. -/
def envCfg (pfx : String) : Cfg :=
  ⟨"cfg", "2006-01-02T15:04:05Z07:00", true, false, false, pfx⟩

/-- The per-character image of the Environment Key Formatter as the
spec words it: `.` and `[` become `_`, `]` is dropped, anything else is
kept. -/
def envKeyChar (ch : Char) : List Char :=
  if ch = '.' ∨ ch = '[' then ['_'] else if ch = ']' then [] else [ch]

/-- The Environment Key Formatter as worded by the spec: apply the
character mapping, prepend the prefix and an underscore when the prefix
is configured, uppercase the whole string. -/
def formatEnvKeySpec (pfx key : String) : String :=
  toUpperGo ((if pfx = "" then "" else pfx ++ "_") ++ String.mk (key.toList.flatMap envKeyChar))

theorem replacerGo_eq_bind (cs : List Char) : replacerGo cs = cs.flatMap envKeyChar := by
  induction cs with
  | nil => rfl
  | cons c rest ih =>
    by_cases h1 : c = '.'
    · simp [replacerGo, envKeyChar, h1, ih]
    · by_cases h2 : c = '['
      · simp [replacerGo, envKeyChar, h1, h2, ih]
      · by_cases h3 : c = ']'
        · simp [replacerGo, envKeyChar, h1, h2, h3, ih]
        · simp [replacerGo, envKeyChar, h1, h2, h3, ih]

/-! ## Claim theorems -/

/-- C6: `formatEnvKey` replaces each `.` and `[` with `_`, drops each
`]`, prepends the prefix followed by `_` when the prefix is non-empty,
and uppercases the entire result; `"loggers[0].log_level"` yields
`"LOGGERS_0_LOG_LEVEL"` with the empty prefix and
`"MYAPP_LOGGERS_0_LOG_LEVEL"` with prefix `"myapp"`. -/
theorem formatEnvKey_correct (c : Cfg) (key : String) :
    formatEnvKey c key = formatEnvKeySpec c.envPrefix key ∧
    formatEnvKey defaultCfg "loggers[0].log_level" = "LOGGERS_0_LOG_LEVEL" ∧
    formatEnvKey (envCfg "myapp") "loggers[0].log_level" = "MYAPP_LOGGERS_0_LOG_LEVEL" := by
  refine ⟨?_, by decide, by decide⟩
  unfold formatEnvKey formatEnvKeySpec
  rw [replacerGo_eq_bind]
  by_cases h : c.envPrefix = "" <;> simp [h]

/-- C5: a field annotated both `required` and with a default literal is
rejected outright by `processField`: the conflict error is returned, the
value is left untouched, and neither the environment nor the
required/default steps run (the result does not depend on the
environment or on the current value being zero). -/
theorem processField_conflict (c : Cfg) (ext : Stdlib) (env : Env)
    (k : Kind) (v : GoValue) (pth dv : String) :
    processField c ext env ⟨k, v, pth, true, true, dv⟩ = (v, some .conflict) := rfl

/-- C8: applying a default literal to a boolean field fails with the
unsupported-type error even for the valid literal `"true"`, while the
same string coerces fine into a boolean via the direct/environment path
(`setValue`); and coercing `"-5"` into an unsigned-integer field fails
instead of wrapping. -/
theorem bool_default_exempt (c : Cfg) (ext : Stdlib) (b : Bool) (w n : Nat) (dv : String) :
    setDefaultValue c ext .kBool (.vBool b) dv = (.vBool b, some .unsupportedType) ∧
    setValue c ext .kBool (.vBool b) "true" = (.vBool true, none) ∧
    setValue c ext (.kUint w) (.vUint w n) "-5" = (.vUint w n, some (.uintParse "-5")) :=
  ⟨rfl, rfl, rfl⟩

/-- C7 (amended): a duration-typed signed field parses its string with
the duration-literal grammar and any other signed field parses it as a
base-10 signed integer; the coercion fails on non-numeric input and on
values outside the 64-bit parse range, but a value that fits in 64 bits
while overflowing a narrower declared width is stored silently wrapped
(two's complement) by `reflect.Value.SetInt` rather than rejected. -/
theorem setValue_signed_int (c : Cfg) (ext : Stdlib) (w : Nat) (v : GoValue) (val : String) :
    (parseInt64 val = none →
      setValue c ext (.kInt w) v val = (v, some (.intParse val))) ∧
    (∀ i, parseInt64 val = some i →
      setValue c ext (.kInt w) v val = (.vInt w (truncInt w i), none)) ∧
    (parseDuration val = none →
      setValue c ext .kDuration v val = (v, some (.durationParse val))) ∧
    (∀ d, parseDuration val = some d →
      setValue c ext .kDuration v val = (.vDuration d, none)) ∧
    parseInt64 "12abc" = none ∧
    parseInt64 "9223372036854775808" = none ∧
    parseDuration "300" = none ∧
    parseDuration "1h30m" = some 5400000000000 := by
  refine ⟨fun h => ?_, fun i h => ?_, fun h => ?_, fun d h => ?_,
    by decide, by decide, by decide, by decide⟩ <;>
    simp [setValue, setValueAux, h]

theorem setValue_signed_int_witness :
    setValue defaultCfg std0 (.kInt 64) (.vInt 64 0) "12abc" =
      (.vInt 64 0, some (.intParse "12abc")) ∧
    setValue defaultCfg std0 (.kInt 64) (.vInt 64 0) "-8" = (.vInt 64 (-8), none) ∧
    setValue defaultCfg std0 .kDuration (.vDuration 0) "5decades" =
      (.vDuration 0, some (.durationParse "5decades")) ∧
    setValue defaultCfg std0 .kDuration (.vDuration 0) "1h30m" =
      (.vDuration 5400000000000, none) :=
  ⟨(setValue_signed_int defaultCfg std0 64 (.vInt 64 0) "12abc").1 rfl,
   (setValue_signed_int defaultCfg std0 64 (.vInt 64 0) "-8").2.1 (-8) rfl,
   (setValue_signed_int defaultCfg std0 64 (.vDuration 0) "5decades").2.2.1 rfl,
   (setValue_signed_int defaultCfg std0 64 (.vDuration 0) "1h30m").2.2.2.1 5400000000000 rfl⟩

/-- C7 counterexample: the claim asserts that any value overflowing the
field's declared integer type fails with no silent wrap into narrower
widths, yet coercing `"300"` into an 8-bit signed field succeeds and
stores `44` (`300 mod 256`, interpreted in two's complement). -/
theorem setValue_int8_wraps :
    setValue defaultCfg std0 (.kInt 8) (.vInt 8 0) "300" = (.vInt 8 44, none) := rfl

/-- C10: `Load` fails before any per-field resolution (the result is
the same for every environment and field list) when the target is not a
pointer to a struct, when file use is suppressed with environment
resolution disabled (`ErrInvalidSources`), and when no file was found
with environment resolution disabled and file use not suppressed
(`ErrFileNotFound`). -/
theorem load_precheck (c : Cfg) (ext : Stdlib) (env : Env) (isSP : Bool)
    (found : List String) (dok : Bool) (fields : List field) :
    (isSP = false → load c ext env isSP found dok fields = some .notStructPtr) ∧
    (c.ignoreFile = true → c.useEnv = false →
      load c ext env true found dok fields = some .invalidSources) ∧
    (c.ignoreFile = false → c.useEnv = false → found = [] →
      load c ext env true found dok fields = some .fileNotFound) := by
  refine ⟨fun h => ?_, fun h1 h2 => ?_, fun h1 h2 h3 => ?_⟩
  · simp [load, h]
  · simp [load, h1, h2]
  · simp [load, h1, h2, h3]

theorem load_precheck_witness :
    load defaultCfg std0 (fun _ => none) false ["config.yaml"] true [] =
      some .notStructPtr ∧
    load ⟨"cfg", "", false, false, true, ""⟩ std0 (fun _ => none) true [] true [] =
      some .invalidSources ∧
    load defaultCfg std0 (fun _ => none) true [] true [] = some .fileNotFound :=
  ⟨(load_precheck defaultCfg std0 (fun _ => none) false ["config.yaml"] true []).1 rfl,
   (load_precheck ⟨"cfg", "", false, false, true, ""⟩ std0 (fun _ => none) true [] true []).2.1
     rfl rfl,
   (load_precheck defaultCfg std0 (fun _ => none) true [] true []).2.2 rfl rfl rfl⟩

/-- C3: a field marked `required` (and not defaulted) whose value after
the optional environment step is the zero value of its type fails with
the required-validation error; with any non-zero value it does not fail
at all (in particular never on the required basis). -/
theorem processField_required (c : Cfg) (ext : Stdlib) (env : Env)
    (k : Kind) (v : GoValue) (pth dv : String) (v1 : GoValue)
    (h : envStep c ext env ⟨k, v, pth, true, false, dv⟩ = (v1, none)) :
    processField c ext env ⟨k, v, pth, true, false, dv⟩ =
      (v1, if isZero v1 then some .requiredError else none) := by
  unfold processField
  rw [h]
  by_cases hz : isZero v1 <;> simp [hz]

theorem processField_required_witness :
    processField defaultCfg std0 (fun _ => none)
        ⟨.kString, .vString "", "x", true, false, ""⟩ =
      (.vString "", some .requiredError) ∧
    processField defaultCfg std0 (fun _ => none)
        ⟨.kString, .vString "a", "x", true, false, ""⟩ =
      (.vString "a", none) :=
  ⟨processField_required defaultCfg std0 (fun _ => none) .kString (.vString "") "x" ""
      (.vString "") rfl,
   processField_required defaultCfg std0 (fun _ => none) .kString (.vString "a") "x" ""
      (.vString "a") rfl⟩

/-- C4: a field carrying a default literal (and not required) whose
value after the optional environment step is still zero gets the
coerced literal written into it (a failing coercion becomes a
default-application error), while a non-zero value is left completely
unchanged by the default step; concretely, an int field pre-set to `5`
with `default:"10"` stays `5`, while a zero one becomes `10`. -/
theorem processField_default (c : Cfg) (ext : Stdlib) (env : Env)
    (k : Kind) (v : GoValue) (pth dv : String) (v1 : GoValue)
    (h : envStep c ext env ⟨k, v, pth, false, true, dv⟩ = (v1, none)) :
    (processField c ext env ⟨k, v, pth, false, true, dv⟩ =
      if isZero v1 then
        match setDefaultValue c ext k v1 dv with
        | (v2, some e) => (v2, some (.defaultError e))
        | (v2, none) => (v2, none)
      else (v1, none)) ∧
    processField defaultCfg std0 (fun _ => none)
        ⟨.kInt 64, .vInt 64 5, "x", false, true, "10"⟩ = (.vInt 64 5, none) ∧
    processField defaultCfg std0 (fun _ => none)
        ⟨.kInt 64, .vInt 64 0, "x", false, true, "10"⟩ = (.vInt 64 10, none) := by
  refine ⟨?_, rfl, rfl⟩
  unfold processField
  rw [h]
  by_cases hz : isZero v1 <;> simp [hz]

theorem processField_default_witness :
    processField defaultCfg std0 (fun _ => none)
        ⟨.kString, .vString "", "x", false, true, "info"⟩ = (.vString "info", none) :=
  (processField_default defaultCfg std0 (fun _ => none) .kString (.vString "") "x" "info"
      (.vString "") rfl).1

theorem setValueAux_success_indep (c : Cfg) (ext : Stdlib) :
    ∀ (fuel : Nat) (k : Kind) (v : GoValue) (val : String),
      (setValueAux c ext fuel k v val).2 = none →
      ∀ v2, setValueAux c ext fuel k v2 val = setValueAux c ext fuel k v val := by
  intro fuel
  induction fuel with
  | zero =>
    intro k v val h v2
    cases k with
    | kBool => cases hp : parseBool val <;> simp_all [setValueAux]
    | kInt w => cases hp : parseInt64 val <;> simp_all [setValueAux]
    | kDuration => cases hp : parseDuration val <;> simp_all [setValueAux]
    | kUint w => cases hp : parseUint64 val <;> simp_all [setValueAux]
    | kString => simp [setValueAux]
    | kTime => cases hp : ext.parseTime c.timeLayout val <;> simp_all [setValueAux]
    | kRegexp => cases hp : ext.compileRegexp val <;> simp_all [setValueAux]
    | kPtr e => simp_all [setValueAux]
    | kSlice e => simp_all [setValueAux]
    | kOther => simp_all [setValueAux]
  | succ n ih =>
    intro k v val h v2
    cases k with
    | kBool => cases hp : parseBool val <;> simp_all [setValueAux]
    | kInt w => cases hp : parseInt64 val <;> simp_all [setValueAux]
    | kDuration => cases hp : parseDuration val <;> simp_all [setValueAux]
    | kUint w => cases hp : parseUint64 val <;> simp_all [setValueAux]
    | kString => simp [setValueAux]
    | kTime => cases hp : ext.parseTime c.timeLayout val <;> simp_all [setValueAux]
    | kRegexp => cases hp : ext.compileRegexp val <;> simp_all [setValueAux]
    | kOther => simp_all [setValueAux]
    | kPtr e =>
      have hr : (setValueAux c ext n e (ptrInner e v) val).2 = none := by
        simpa [setValueAux] using h
      have heq := ih e (ptrInner e v) val hr (ptrInner e v2)
      simp only [setValueAux]
      rw [heq]
    | kSlice e =>
      cases hct : coerceTokens (fun s => setValueAux c ext n e (zeroValue e) s)
          (stringSlice val) with
      | ok elems => simp_all [setValueAux]
      | error e0 => simp_all [setValueAux]

/-- A successful coercion fully overwrites the location: its result does
not depend on the value previously stored there. -/
theorem setValue_success_indep (c : Cfg) (ext : Stdlib) (k : Kind) (v : GoValue)
    (val : String) (h : (setValue c ext k v val).2 = none) (v2 : GoValue) :
    setValue c ext k v2 val = setValue c ext k v val :=
  setValueAux_success_indep c ext (kindSize k) k v val h v2

/-- C1: with environment resolution enabled and a variable with the
derived key present, its successfully coerced value overwrites whatever
value the field had (from the file or pre-set), and the default literal
is applied only if the field is still zero afterwards; when the variable
is absent the environment step changes nothing and raises no error
(processing is the same as under an empty environment), so the final
precedence is environment over file over default. -/
theorem processField_env_overlay (c : Cfg) (ext : Stdlib) (env : Env)
    (k : Kind) (v : GoValue) (pth dv : String) (sd : Bool) (val : String) (v' : GoValue) :
    (c.useEnv = true → env (formatEnvKey c pth) = some val →
      setValue c ext k v val = (v', none) →
      processField c ext env ⟨k, v, pth, false, sd, dv⟩ =
        (if sd && isZero v' then
          match setDefaultValue c ext k v' dv with
          | (v2, some e) => (v2, some (.defaultError e))
          | (v2, none) => (v2, none)
        else (v', none))) ∧
    (setValue c ext k v val = (v', none) →
      ∀ v0, setValue c ext k v0 val = (v', none)) ∧
    (∀ req sd2 : Bool, env (formatEnvKey c pth) = none →
      processField c ext env ⟨k, v, pth, req, sd2, dv⟩ =
        processField c ext (fun _ => none) ⟨k, v, pth, req, sd2, dv⟩) := by
  refine ⟨?_, ?_, ?_⟩
  case refine_2 =>
    intro hs v0
    rw [setValue_success_indep c ext k v val (by rw [hs]) v0]
    exact hs
  · intro hu he hs
    unfold processField
    have hstep : envStep c ext env ⟨k, v, pth, false, sd, dv⟩ = (v', none) := by
      simp [envStep, setFromEnv, hu, he, hs]
    rw [hstep]
    by_cases hz : sd && isZero v' <;> simp [hz]
  · intro req sd2 he
    have hstep : envStep c ext env ⟨k, v, pth, req, sd2, dv⟩ =
        envStep c ext (fun _ => none) ⟨k, v, pth, req, sd2, dv⟩ := by
      simp [envStep, setFromEnv, he]
    unfold processField
    rw [hstep]

theorem processField_env_overlay_witness :
    processField (envCfg "") std0 (fun key => if key = "X" then some "7" else none)
        ⟨.kInt 64, .vInt 64 5, "x", false, true, "10"⟩ = (.vInt 64 7, none) ∧
    setValue (envCfg "") std0 (.kInt 64) (.vInt 64 123) "7" = (.vInt 64 7, none) ∧
    processField (envCfg "") std0 (fun key => if key = "Y" then some "9" else none)
        ⟨.kInt 64, .vInt 64 5, "x", true, false, "10"⟩ =
      processField (envCfg "") std0 (fun _ => none)
        ⟨.kInt 64, .vInt 64 5, "x", true, false, "10"⟩ :=
  ⟨(processField_env_overlay (envCfg "") std0
      (fun key => if key = "X" then some "7" else none) (.kInt 64) (.vInt 64 5) "x" "10"
      true "7" (.vInt 64 7)).1 rfl rfl rfl,
   (processField_env_overlay (envCfg "") std0
      (fun key => if key = "X" then some "7" else none) (.kInt 64) (.vInt 64 5) "x" "10"
      true "7" (.vInt 64 7)).2.1 rfl (.vInt 64 123),
   (processField_env_overlay (envCfg "") std0
      (fun key => if key = "Y" then some "9" else none) (.kInt 64) (.vInt 64 5) "x" "10"
      true "7" (.vInt 64 7)).2.2 true false rfl⟩

/-! ## Lemmas about error aggregation -/

theorem insertErr_ne_nil (m : List (String × FieldError)) (key : String) (e : FieldError) :
    insertErr m key e ≠ [] := by
  cases m with
  | nil => simp [insertErr]
  | cons p rest =>
    obtain ⟨k, v⟩ := p
    by_cases h : k = key <;> simp [insertErr, h]

theorem mem_keys_insertErr (m : List (String × FieldError)) (key k' : String) (e : FieldError) :
    k' ∈ (insertErr m key e).map Prod.fst ↔ k' = key ∨ k' ∈ m.map Prod.fst := by
  induction m with
  | nil => simp [insertErr]
  | cons p rest ih =>
    obtain ⟨k, v⟩ := p
    by_cases h : k = key
    · subst h
      simp [insertErr]
    · simp [insertErr, h, ih]
      tauto

theorem collectErrs_nil_iff (c : Cfg) (ext : Stdlib) (env : Env) :
    ∀ (fields : List field) (acc : List (String × FieldError)),
      collectErrs c ext env acc fields = [] ↔
        acc = [] ∧ ∀ fld ∈ fields, (processField c ext env fld).2 = none := by
  intro fields
  induction fields with
  | nil => intro acc; simp [collectErrs]
  | cons fld rest ih =>
    intro acc
    cases hp : (processField c ext env fld).2 with
    | some e =>
      have heq : collectErrs c ext env acc (fld :: rest) =
          collectErrs c ext env (insertErr acc fld.path e) rest := by
        simp [collectErrs, hp]
      rw [heq, ih]
      constructor
      · rintro ⟨h1, _⟩
        exact absurd h1 (insertErr_ne_nil _ _ _)
      · rintro ⟨_, h2⟩
        exact absurd (h2 fld (List.mem_cons_self _ _)) (by simp [hp])
    | none =>
      have heq : collectErrs c ext env acc (fld :: rest) = collectErrs c ext env acc rest := by
        simp [collectErrs, hp]
      rw [heq, ih]
      constructor
      · rintro ⟨h1, h2⟩
        refine ⟨h1, fun fld' hm => ?_⟩
        rcases List.mem_cons.1 hm with h | h
        · rw [h]; exact hp
        · exact h2 _ h
      · rintro ⟨h1, h2⟩
        exact ⟨h1, fun fld' hm => h2 _ (List.mem_cons_of_mem _ hm)⟩

theorem collectErrs_keys_mono (c : Cfg) (ext : Stdlib) (env : Env) :
    ∀ (fields : List field) (acc : List (String × FieldError)) (k' : String),
      k' ∈ acc.map Prod.fst → k' ∈ (collectErrs c ext env acc fields).map Prod.fst := by
  intro fields
  induction fields with
  | nil => intro acc k' h; simpa [collectErrs] using h
  | cons fld rest ih =>
    intro acc k' h
    cases hp : (processField c ext env fld).2 with
    | some e =>
      have heq : collectErrs c ext env acc (fld :: rest) =
          collectErrs c ext env (insertErr acc fld.path e) rest := by
        simp [collectErrs, hp]
      rw [heq]
      exact ih _ _ ((mem_keys_insertErr _ _ _ _).2 (Or.inr h))
    | none =>
      have heq : collectErrs c ext env acc (fld :: rest) = collectErrs c ext env acc rest := by
        simp [collectErrs, hp]
      rw [heq]
      exact ih _ _ h

theorem collectErrs_mem_of_fail (c : Cfg) (ext : Stdlib) (env : Env) :
    ∀ (fields : List field) (acc : List (String × FieldError)) (fld : field) (e : FieldError),
      fld ∈ fields → (processField c ext env fld).2 = some e →
      fld.path ∈ (collectErrs c ext env acc fields).map Prod.fst := by
  intro fields
  induction fields with
  | nil => intro acc fld e h; cases h
  | cons f0 rest ih =>
    intro acc fld e hm hp
    rcases List.mem_cons.1 hm with h | h
    · subst h
      have heq : collectErrs c ext env acc (fld :: rest) =
          collectErrs c ext env (insertErr acc fld.path e) rest := by
        simp [collectErrs, hp]
      rw [heq]
      exact collectErrs_keys_mono c ext env rest _ _
        ((mem_keys_insertErr _ _ _ _).2 (Or.inl rfl))
    · cases hp0 : (processField c ext env f0).2 with
      | some e0 =>
        have heq : collectErrs c ext env acc (f0 :: rest) =
            collectErrs c ext env (insertErr acc f0.path e0) rest := by
          simp [collectErrs, hp0]
        rw [heq]
        exact ih _ _ _ h hp
      | none =>
        have heq : collectErrs c ext env acc (f0 :: rest) =
            collectErrs c ext env acc rest := by
          simp [collectErrs, hp0]
        rw [heq]
        exact ih _ _ _ h hp

/-- C2: `processCfg` processes every field even after earlier failures:
it succeeds (returns no error) exactly when every field of the list
processes cleanly, and whenever any field of the list fails the
aggregate error is returned and contains that field's rendered path as
a key. -/
theorem processCfg_aggregates (c : Cfg) (ext : Stdlib) (env : Env) (fields : List field) :
    (processCfg c ext env fields = none ↔
      ∀ fld ∈ fields, (processField c ext env fld).2 = none) ∧
    (∀ fld ∈ fields, ∀ e, (processField c ext env fld).2 = some e →
      ∃ m, processCfg c ext env fields = some m ∧ fld.path ∈ m.map Prod.fst) := by
  constructor
  · have hiff := collectErrs_nil_iff c ext env fields []
    constructor
    · intro hnone fld hm
      by_cases h : collectErrs c ext env [] fields = []
      · exact (hiff.1 h).2 fld hm
      · exfalso
        have hlen : (collectErrs c ext env [] fields).length > 0 := List.length_pos.2 h
        have hsome : processCfg c ext env fields = some (collectErrs c ext env [] fields) := by
          simp [processCfg, hlen]
        rw [hsome] at hnone
        cases hnone
    · intro hall
      have h : collectErrs c ext env [] fields = [] := hiff.2 ⟨rfl, hall⟩
      simp [processCfg, h]
  · intro fld hm e hp
    have hk := collectErrs_mem_of_fail c ext env fields [] fld e hm hp
    have hne : collectErrs c ext env [] fields ≠ [] := by
      intro h0
      rw [h0] at hk
      simp at hk
    refine ⟨collectErrs c ext env [] fields, ?_, hk⟩
    simp only [processCfg, List.length_pos.2 hne, if_true]

theorem processCfg_aggregates_witness :
    ∃ m, processCfg defaultCfg std0 (fun _ => none)
        [⟨.kString, .vString "", "x", true, false, ""⟩,
         ⟨.kInt 64, .vInt 64 0, "y", false, true, "oops"⟩] = some m ∧
      "x" ∈ m.map Prod.fst :=
  (processCfg_aggregates defaultCfg std0 (fun _ => none)
      [⟨.kString, .vString "", "x", true, false, ""⟩,
       ⟨.kInt 64, .vInt 64 0, "y", false, true, "oops"⟩]).2
    ⟨.kString, .vString "", "x", true, false, ""⟩ (by simp) .requiredError rfl

/-! ## Lemmas about sequence coercion -/

theorem coerceTokens_ok_forall (coe : String → GoValue × Option CoerceError) :
    ∀ (ss : List String) (elems : List GoValue), coerceTokens coe ss = .ok elems →
      List.Forall₂ (fun s v => coe s = (v, none)) ss elems := by
  intro ss
  induction ss with
  | nil =>
    intro elems h
    simp only [coerceTokens, Except.ok.injEq] at h
    rw [← h]
    exact List.Forall₂.nil
  | cons s rest ih =>
    intro elems h
    unfold coerceTokens at h
    cases hc : coe s with
    | mk v err =>
      rw [hc] at h
      cases err with
      | some e => simp at h
      | none =>
        cases hr : coerceTokens coe rest with
        | ok vs =>
          rw [hr] at h
          simp only [Except.ok.injEq] at h
          rw [← h]
          exact List.Forall₂.cons hc (ih vs hr)
        | error e =>
          rw [hr] at h
          simp at h

theorem coerceTokens_error_of_mem (coe : String → GoValue × Option CoerceError) :
    ∀ (ss : List String) (s : String), s ∈ ss → (coe s).2 ≠ none →
      ∃ e, coerceTokens coe ss = .error e := by
  intro ss
  induction ss with
  | nil => intro s h; cases h
  | cons s0 rest ih =>
    intro s hm hf
    rcases List.mem_cons.1 hm with h | h
    · subst h
      cases hc : coe s with
      | mk v err =>
        cases err with
        | none => rw [hc] at hf; simp at hf
        | some e => exact ⟨e, by unfold coerceTokens; rw [hc]⟩
    · cases hc : coe s0 with
      | mk v err =>
        cases err with
        | some e => exact ⟨e, by unfold coerceTokens; rw [hc]⟩
        | none =>
          obtain ⟨e, he⟩ := ih s h hf
          exact ⟨e, by unfold coerceTokens; rw [hc, he]⟩

/-- C9: `setSlice` coerces every parsed token into a newly allocated
sequence of the element kind and assigns it only when every element
succeeded: on any error the target retains its prior value and the
whole coercion fails, a single failing token fails the whole sequence,
and on success the resulting elements are exactly the per-token
coercions (and `setValue` on a slice kind is `setSlice`). -/
theorem setSlice_atomic (c : Cfg) (ext : Stdlib) (e : Kind) (xs : List GoValue)
    (val : String) :
    (∀ err, (setSlice c ext e (.vSlice e xs) val).2 = some err →
      (setSlice c ext e (.vSlice e xs) val).1 = .vSlice e xs) ∧
    (∀ s ∈ stringSlice val, (setValue c ext e (zeroValue e) s).2 ≠ none →
      (setSlice c ext e (.vSlice e xs) val).2 ≠ none) ∧
    ((setSlice c ext e (.vSlice e xs) val).2 = none →
      ∃ elems, setSlice c ext e (.vSlice e xs) val = (.vSlice e elems, none) ∧
        List.Forall₂ (fun s v => setValue c ext e (zeroValue e) s = (v, none))
          (stringSlice val) elems) ∧
    setValue c ext (.kSlice e) (.vSlice e xs) val = setSlice c ext e (.vSlice e xs) val := by
  refine ⟨?_, ?_, ?_, rfl⟩
  · intro err h
    unfold setSlice at h ⊢
    cases hct : coerceTokens (fun s => setValue c ext e (zeroValue e) s) (stringSlice val) with
    | ok elems => rw [hct] at h; simp at h
    | error e0 => rfl
  · intro s hm hf
    obtain ⟨e0, he0⟩ :=
      coerceTokens_error_of_mem (fun s => setValue c ext e (zeroValue e) s)
        (stringSlice val) s hm hf
    unfold setSlice
    rw [he0]
    simp
  · intro h
    unfold setSlice at h ⊢
    cases hct : coerceTokens (fun s => setValue c ext e (zeroValue e) s) (stringSlice val) with
    | ok elems =>
      exact ⟨elems, rfl,
        coerceTokens_ok_forall (fun s => setValue c ext e (zeroValue e) s)
          (stringSlice val) elems hct⟩
    | error e0 => rw [hct] at h; simp at h

theorem setSlice_atomic_witness :
    (setSlice defaultCfg std0 (.kUint 64) (.vSlice (.kUint 64) [.vUint 64 7]) "[-5]").1 =
      .vSlice (.kUint 64) [.vUint 64 7] ∧
    (∃ elems, setSlice defaultCfg std0 (.kUint 64) (.vSlice (.kUint 64) []) "[5,10]" =
        (.vSlice (.kUint 64) elems, none) ∧
      List.Forall₂
        (fun s v => setValue defaultCfg std0 (.kUint 64) (zeroValue (.kUint 64)) s = (v, none))
        (stringSlice "[5,10]") elems) :=
  ⟨(setSlice_atomic defaultCfg std0 (.kUint 64) [.vUint 64 7] "[-5]").1
      (.uintParse "-5") rfl,
   (setSlice_atomic defaultCfg std0 (.kUint 64) [] "[5,10]").2.2.1 rfl⟩

end CfgModel
